import Mathlib

/-!
Shallow embedding of the fakehttpfs virtual filesystem (fakefs.go):
the node tree (file / dir / external node), the path resolver `Open`/`find`,
the stateful directory listing `Readdir`/`Close`, the leaf read cursor,
and the metadata accessors, together with theorems settling the claims.
-/

namespace Fakehttpfs

/-- Go strings, modelled as lists of characters. -/
abbrev Str := List Char

/-- Go `time.Time`, modelled opaquely; the code never computes with it,
only stores and returns it.  The zero value is `0`. -/
abbrev Time := Int

/-- Go error values reachable in this package: `os.ErrNotExist`, `io.EOF`
and arbitrary errors produced by externally supplied nodes. -/
inductive GoError where
  | errNotExist
  | eof
  | errMsg (s : Str)
deriving DecidableEq, Repr

/-- Result of an accessor that may abort the program (`panic` in the
source) instead of returning: distinct from the recoverable `GoError`s. -/
inductive FatalOr (α : Type) where
  | fatal (msg : Str)
  | value (v : α)
deriving DecidableEq, Repr

/-- `os.FileInfo` as observed through the accessors the package uses:
`Name`, `Size`, `ModTime` (which may be a fatal panic), `IsDir`. -/
structure FileInfo where
  name : Str
  size : Int
  modTime : FatalOr Time
  isDir : Bool
deriving DecidableEq, Repr

/-- Go struct `file`: name, the stored `size` field (set to the content
length at construction and never read by `Size()`), the modification
time, and the `*bytes.Reader`, modelled as the underlying bytes plus the
read cursor `pos`. -/
structure GoFile where
  name : Str
  size : Int
  modTime : Time
  content : Str
  pos : Nat
deriving DecidableEq, Repr

/-- A node of the tree: Go interface `http.File`.  `file` and `dir` are
the two structs of the package (Go struct `dir` has fields name, files,
position); `ext` is an externally supplied `http.File`, of which the
package only observes its `Stat` result. -/
inductive Node where
  | file (f : GoFile)
  | dir (name : Str) (files : List Node) (position : Nat)
  | ext (statr : Except GoError FileInfo)

/-- `func File(name, contents string, options ...interface{}) http.File`:
content bytes are the contents verbatim, cursor starts at 0, and each
`time.Time` option overwrites the modification time (zero value if none
is given).  Other option types panic at construction and carry no data,
so the options are modelled as the list of time options. -/
def File (name contents : Str) (options : List Time) : GoFile :=
  { name := name
    size := (contents.length : Int)
    modTime := options.foldl (fun _ t => t) 0
    content := contents
    pos := 0 }

/-- `func Dir(name string, files ...http.File) http.File`. -/
def Dir (name : Str) (files : List Node) : Node :=
  .dir name files 0

/-- `func FileSystem(files ...http.File) http.FileSystem`: the root is a
`dir` with empty name. -/
def FileSystem (files : List Node) : Node :=
  .dir [] files 0

/-- `bytes.Reader.Len()`: the number of unread bytes (0 when the cursor
is at or past the end, which Nat subtraction gives directly). -/
def GoFile.readerLen (f : GoFile) : Nat :=
  f.content.length - f.pos

/-- `func (f file) Size() int64 { return int64(f.Reader.Len()) }`. -/
def GoFile.Size (f : GoFile) : Int :=
  (f.readerLen : Int)

/-- `func (f file) ModTime() time.Time { return f.modTime }` — total,
never fatal. -/
def GoFile.ModTime (f : GoFile) : FatalOr Time :=
  .value f.modTime

/-- `func (d *dir) Size() int64 { return 0 }`. -/
def dirSize (_name : Str) (_files : List Node) (_position : Nat) : Int :=
  0

/-- `func (d *dir) ModTime() time.Time { panic("unimplemented") }`. -/
def dirModTime (_name : Str) (_files : List Node) (_position : Nat) : FatalOr Time :=
  .fatal ("unimplemented".toList)

/-- `Stat` of a node.  `file.Stat` and `dir.Stat` return the receiver
itself as its own `os.FileInfo` and never fail; the record snapshots what
its accessors answer (for a `dir`, querying `ModTime` panics).  An
external node answers its stored result. -/
def Node.Stat : Node → Except GoError FileInfo
  | .file f => .ok ⟨f.name, f.Size, .value f.modTime, false⟩
  | .dir n _ _ => .ok ⟨n, 0, .fatal ("unimplemented".toList), true⟩
  | .ext r => r

/-- `strings.SplitN(name, "/", 2)`: the part before the first `/` and,
when a `/` is present, everything after it. -/
def splitFirst : Str → Str × Option Str
  | [] => ([], none)
  | c :: s =>
    if c = '/' then ([], some s)
    else
      let p := splitFirst s
      (c :: p.1, p.2)

/-- The scan loop of `func (d *dir) find(name string)`: `Stat` each child
in order, fail with the child's error if `Stat` fails, return the first
child whose name matches, `os.ErrNotExist` if none does. -/
def findLoop : List Node → Str → Except GoError Node
  | [], _ => .error .errNotExist
  | f :: rest, nm =>
    match f.Stat with
    | .error e => .error e
    | .ok info => if info.name = nm then .ok f else findLoop rest nm

/-- `func (d *dir) find(name string)`: `""` and `"."` resolve to the
directory itself, otherwise the children are scanned.  (The non-`dir`
branch is unreachable: `find` is a method on `*dir`.) -/
def find (d : Node) (nm : Str) : Except GoError Node :=
  if nm = [] ∨ nm = ['.'] then .ok d
  else
    match d with
    | .dir _ dfs _ => findLoop dfs nm
    | _ => .error .errNotExist

/-- `func (d *dir) Open(name string)`, with explicit fuel so that the
recursion is structural: split off the first segment, `find` it, return
directly if no separator was present, otherwise descend — which requires
the found node to be a `*dir`; any other case (a leaf, an external node,
or a `find` error) yields `os.ErrNotExist`.  Each recursive call strictly
shrinks the path, so `length + 1` fuel (see `Node.Open`) never runs out. -/
def openFuel : Nat → Node → Str → Except GoError Node
  | 0, _, _ => .error .errNotExist
  | fuel + 1, d, nm =>
    match d with
    | .dir dn dfs dp =>
      match splitFirst nm with
      | (head, none) => find (.dir dn dfs dp) head
      | (head, some rest) =>
        match find (.dir dn dfs dp) head with
        | .ok (.dir sn sfs sp) => openFuel fuel (.dir sn sfs sp) rest
        | _ => .error .errNotExist
    | _ => .error .errNotExist

/-- `func (d *dir) Open(name string)` (see `openFuel`). -/
def Node.Open (d : Node) (nm : Str) : Except GoError Node :=
  openFuel (nm.length + 1) d nm

/-! The directory listing protocol: `Readdir` and `Close`. -/

/-- The `count == 0` loop of `func (d *dir) Readdir(count int)`: `Stat`
every child in order; on the first failure return the entries collected
before the failing child together with its error. -/
def statList : List Node → List FileInfo × Option GoError
  | [] => ([], none)
  | f :: rest =>
    match f.Stat with
    | .error e => ([], some e)
    | .ok info =>
      let r := statList rest
      (info :: r.1, r.2)

/-- The `count > 0` loop of `func (d *dir) Readdir(count int)`: up to
`count` iterations; when the cursor is at or past the end return the
entries of this call so far plus `io.EOF`; a child `Stat` failure
returns them plus that error (cursor not advanced past the failing
child); otherwise the cursor advances per entry. -/
def readdirLoop (files : List Node) (position : Nat) :
    Nat → List FileInfo × Option GoError × Nat
  | 0 => ([], none, position)
  | count + 1 =>
    if h : position < files.length then
      match (files[position]).Stat with
      | .error e => ([], some e, position)
      | .ok info =>
        let r := readdirLoop files (position + 1) count
        (info :: r.1, r.2.1, r.2.2)
    else ([], some .eof, position)

/-- `func (d *dir) Readdir(count int)`, returning the entries, the error
slot (`none` for success, `some .eof` for the exhaustion signal) and the
directory's cursor after the call. -/
def Readdir (files : List Node) (position : Nat) (count : Nat) :
    List FileInfo × Option GoError × Nat :=
  if count = 0 then
    let r := statList files
    (r.1, r.2, position)
  else readdirLoop files position count

/-- `func (d *dir) Close() error { d.position = 0; return nil }`:
the returned error and the cursor after the call. -/
def Close (_position : Nat) : Option GoError × Nat :=
  (none, 0)

/-- `func (f file) Close() error`: seeks the read cursor back to the
start (`Seek(0, 0)` on a `bytes.Reader` cannot fail) and returns nil. -/
def GoFile.Close (f : GoFile) : Option GoError × GoFile :=
  (none, { f with pos := 0 })

/-- `func (f file) Read(b []byte)`, passing through to
`bytes.Reader.Read` with a buffer of length `count`: at or past the end
it returns no bytes and `io.EOF`; otherwise it copies
`min count remaining` bytes and advances the cursor by that amount. -/
def GoFile.Read (f : GoFile) (count : Nat) : Str × Option GoError × GoFile :=
  if f.content.length ≤ f.pos then ([], some .eof, f)
  else
    let bs := (f.content.drop f.pos).take count
    (bs, none, { f with pos := f.pos + bs.length })

/-- Reading to the end, as the test's `bytes.Buffer.ReadFrom` does:
repeated `Read` calls with a fixed-size buffer, collecting the bytes
until the reader reports `io.EOF`.  The fuel bounds the number of calls;
`readAll` supplies enough, since every non-final call reads at least one
byte. -/
def readAllAux : GoFile → Nat → Str
  | _, 0 => []
  | f, fuel + 1 =>
    match f.Read 512 with
    | (bs, some _, _) => bs
    | (bs, none, f2) => bs ++ readAllAux f2 fuel

/-- Read a leaf's remaining bytes to the end (see `readAllAux`). -/
def readAll (f : GoFile) : Str :=
  readAllAux f (f.content.length + 1)

/-! `Open` in state-threading form, to state the frame claim: every
value a call could reach and mutate is passed in and handed back.  In
the source the only state reachable from `Open` is the receiver and, via
`Stat`, its children; the bodies of `file.Stat` and `dir.Stat` contain
no assignment, so the threaded `Stat` returns its receiver unchanged
(an external node's `Stat` is opaque and modelled as pure — hence the
package-built precondition of the frame theorem). -/

/-- `Stat` returning the receiver as it is afterwards, per variant. -/
def StatT : Node → Except GoError FileInfo × Node
  | .file f => ((Node.file f).Stat, .file f)
  | .dir n fs p => ((Node.dir n fs p).Stat, .dir n fs p)
  | .ext r => (r, .ext r)

/-- The `find` scan in state-threading form, returning the index of the
found child (Go's `find` returns an alias into `d.files`, so state a
later descent writes through the result must land back in the list). -/
def findLoopT : List Node → Str → Nat → Except GoError Nat × List Node
  | [], _, _ => (.error .errNotExist, [])
  | f :: rest, nm, i =>
    match StatT f with
    | (.error e, f1) => (.error e, f1 :: rest)
    | (.ok info, f1) =>
      if info.name = nm then (.ok i, f1 :: rest)
      else
        let r := findLoopT rest nm (i + 1)
        (r.1, f1 :: r.2)

/-- Outcome of the threaded `find`: the directory itself, a child index,
or an error. -/
inductive FindR where
  | selfR
  | childR (i : Nat)
  | errR (e : GoError)

/-- `find` in state-threading form. -/
def findT (dfs : List Node) (nm : Str) : FindR × List Node :=
  if nm = [] ∨ nm = ['.'] then (.selfR, dfs)
  else
    match findLoopT dfs nm 0 with
    | (.ok i, dfs1) => (.childR i, dfs1)
    | (.error e, dfs1) => (.errR e, dfs1)

/-- `Open` in state-threading form (fuelled like `openFuel`): the result
plus the directory's fields as they are after the call, with a descent's
effect on a child written back at the child's index. -/
def OpenTF : Nat → Str → List Node → Nat → Str →
    Except GoError Node × (Str × List Node × Nat)
  | 0, dn, dfs, dp, _ => (.error .errNotExist, (dn, dfs, dp))
  | fuel + 1, dn, dfs, dp, nm =>
    match splitFirst nm with
    | (head, none) =>
      match findT dfs head with
      | (.selfR, dfs1) => (.ok (.dir dn dfs1 dp), (dn, dfs1, dp))
      | (.childR i, dfs1) =>
        (match dfs1[i]? with
         | some c => .ok c
         | none => .error .errNotExist, (dn, dfs1, dp))
      | (.errR e, dfs1) => (.error e, (dn, dfs1, dp))
    | (head, some rest) =>
      match findT dfs head with
      | (.selfR, dfs1) => OpenTF fuel dn dfs1 dp rest
      | (.childR i, dfs1) =>
        match dfs1[i]? with
        | some (.dir sn sfs sp) =>
          let r := OpenTF fuel sn sfs sp rest
          (r.1, (dn, dfs1.set i (.dir r.2.1 r.2.2.1 r.2.2.2), dp))
        | _ => (.error .errNotExist, (dn, dfs1, dp))
      | (.errR _, dfs1) => (.error .errNotExist, (dn, dfs1, dp))

/-- `Open` in state-threading form (see `OpenTF`). -/
def OpenT (dn : Str) (dfs : List Node) (dp : Nat) (nm : Str) :
    Except GoError Node × (Str × List Node × Nat) :=
  OpenTF (nm.length + 1) dn dfs dp nm

/-- Every node of the tree was built by this package's constructors
(`File`/`Dir`/`FileSystem`): no externally supplied node anywhere, so
every metadata query in the tree is pure. -/
inductive PackageBuilt : Node → Prop where
  | fileB (f : GoFile) : PackageBuilt (.file f)
  | dirB (n : Str) (fs : List Node) (p : Nat) :
      (∀ c ∈ fs, PackageBuilt c) → PackageBuilt (.dir n fs p)

/-- The metadata of a node whose `Stat` succeeds (dummy record
otherwise); used to state listing theorems. -/
def statInfo (f : Node) : FileInfo :=
  match f.Stat with
  | .ok info => info
  | .error _ => ⟨[], 0, .value 0, false⟩

/-- Whether a node's `Stat` succeeds. -/
def statOk (f : Node) : Bool :=
  match f.Stat with
  | .ok _ => true
  | .error _ => false

/-- Every child's `Stat` succeeds (true of every tree built only from
this package's constructors, whose `Stat` never fails). -/
def statsOk (files : List Node) : Bool :=
  files.all statOk

/-- The cursor after `i` successive `Readdir count` calls starting
from 0. -/
def iterPos (files : List Node) (count : Nat) : Nat → Nat
  | 0 => 0
  | i + 1 => (Readdir files (iterPos files count i) count).2.2

/-- The result of the `i`-th (0-based) of the successive `Readdir count`
calls starting from cursor 0. -/
def nthPage (files : List Node) (count i : Nat) :
    List FileInfo × Option GoError × Nat :=
  Readdir files (iterPos files count i) count

/-- The result a trailing-separator path maps an inner resolution to:
containers pass through, everything else becomes `os.ErrNotExist`. -/
def descendResult : Except GoError Node → Except GoError Node
  | .ok (.dir n f p) => .ok (.dir n f p)
  | _ => .error .errNotExist

/-! The tree built in the repository's test file (`testFS`), reused here
as the concrete tree for witnesses and counterexamples. -/

/-- The `now` timestamp of the test file (any nonzero value). -/
def now : Time := 1

def barF : GoFile := File ("bar".toList) ("BAR".toList) [now]

def bazF : GoFile := File ("baz".toList) ("BAZ".toList) []

def helloF : GoFile := File ("hello".toList) ("hello".toList) []

def fooD : Node :=
  Dir ("foo".toList)
    [.file barF,
     Dir ("baz".toList) [Dir ("baz".toList) [Dir ("baz".toList) [.file bazF]]]]

def testFS : Node := FileSystem [fooD, .file helloF]

/-- The five-file directory of the repository's `Readdir` tests. -/
def pagFiles : List Node :=
  [.file (File ("one".toList) [] []),
   .file (File ("two".toList) [] []),
   .file (File ("three".toList) [] []),
   .file (File ("four".toList) [] []),
   .file (File ("five".toList) [] [])]

/-- An error an external node's `Stat` may produce. -/
def boomE : GoError := .errMsg ("boom".toList)

/-- An externally supplied node whose `Stat` fails. -/
def extBad : Node := .ext (.error boomE)

/-- An externally supplied node whose metadata reports a directory named
`x` — but which is not a `dir` value of this package. -/
def extDir : Node := .ext (.ok ⟨"x".toList, 0, .value 0, true⟩)

/-! Helper lemmas about path splitting and fuel. -/

/-- A split that found a separator strictly shrinks the path. -/
theorem splitFirst_rest_length {nm head rest : Str}
    (h : splitFirst nm = (head, some rest)) : rest.length < nm.length := by
  induction nm generalizing head rest with
  | nil => simp [splitFirst] at h
  | cons c s ih =>
    by_cases hc : c = '/'
    · simp [splitFirst, hc] at h
      simp [h.2.symm]
    · simp [splitFirst, hc] at h
      rcases hsp : splitFirst s with ⟨h1, r1⟩
      rw [hsp] at h
      cases r1 with
      | none => simp at h
      | some r =>
        simp at h
        have := @ih h1 r (by rw [hsp])
        simp [← h.2, Nat.lt_succ_of_lt this]

/-- `openFuel` does not depend on the fuel as long as it exceeds the
path length. -/
theorem openFuel_congr :
    ∀ f1 f2 : Nat, ∀ d : Node, ∀ nm : Str, nm.length < f1 → nm.length < f2 →
      openFuel f1 d nm = openFuel f2 d nm := by
  intro f1
  induction f1 with
  | zero => intro f2 d nm h1; omega
  | succ f1 ih =>
    intro f2 d nm h1 h2
    cases f2 with
    | zero => omega
    | succ f2 =>
      cases d with
      | file f => simp [openFuel]
      | ext r => simp [openFuel]
      | dir dn dfs dp =>
        rcases hsp : splitFirst nm with ⟨head, rest⟩
        cases rest with
        | none => simp [openFuel, hsp]
        | some r =>
          have hr : r.length < nm.length := splitFirst_rest_length hsp
          simp only [openFuel, hsp]
          rcases hf : find (.dir dn dfs dp) head with e | n
          · simp
          · cases n with
            | file f => simp
            | ext s => simp
            | dir sn sfs sp => exact ih f2 (.dir sn sfs sp) r (by omega) (by omega)

/-- Opening the empty path on a directory returns the directory itself,
for any positive fuel. -/
theorem openFuel_nil (fuel : Nat) (dn : Str) (dfs : List Node) (dp : Nat)
    (h : 0 < fuel) : openFuel fuel (.dir dn dfs dp) [] = .ok (.dir dn dfs dp) := by
  cases fuel with
  | zero => omega
  | succ f => rfl

/-- A leading separator makes `find` return the directory itself (head
segment `""`), after which resolution continues with the remainder in
the same directory. -/
theorem open_leading_slash (dn : Str) (dfs : List Node) (dp : Nat) (p : Str) :
    Node.Open (.dir dn dfs dp) ('/' :: p) = Node.Open (.dir dn dfs dp) p := by
  rfl

/-- C1: on any directory (so in particular the root), `Open ""`,
`Open "."` and `Open "/"` all resolve to that very directory value (the
source returns the receiver pointer itself, modelled here as returning
the directory value unchanged), and prefixing any path with `/` gives
exactly the same result as the path itself. -/
theorem open_self_and_leading_slash (dn : Str) (dfs : List Node) (dp : Nat) :
    Node.Open (.dir dn dfs dp) ([] : Str) = .ok (.dir dn dfs dp)
    ∧ Node.Open (.dir dn dfs dp) ['.'] = .ok (.dir dn dfs dp)
    ∧ Node.Open (.dir dn dfs dp) ['/'] = .ok (.dir dn dfs dp)
    ∧ ∀ p : Str, Node.Open (.dir dn dfs dp) ('/' :: p) = Node.Open (.dir dn dfs dp) p :=
  ⟨rfl, rfl, rfl, fun p => open_leading_slash dn dfs dp p⟩

/-- The one-step unfolding of `openFuel` on a directory. -/
theorem openFuel_succ (fuel : Nat) (dn : Str) (dfs : List Node) (dp : Nat) (nm : Str) :
    openFuel (fuel + 1) (.dir dn dfs dp) nm =
      match splitFirst nm with
      | (head, none) => find (.dir dn dfs dp) head
      | (head, some rest) =>
        match find (.dir dn dfs dp) head with
        | .ok (.dir sn sfs sp) => openFuel fuel (.dir sn sfs sp) rest
        | _ => .error .errNotExist := rfl

/-- How a trailing separator splits: the head is unchanged and the tail
gains the trailing separator (or becomes the empty segment). -/
theorem splitFirst_append_slash (q : Str) :
    splitFirst (q ++ ['/']) =
      match splitFirst q with
      | (h, none) => (h, some [])
      | (h, some r) => (h, some (r ++ ['/'])) := by
  induction q with
  | nil => rfl
  | cons c s ih =>
    by_cases hc : c = '/'
    · simp [splitFirst, hc]
    · rcases hsp : splitFirst s with ⟨h1, r1⟩
      rw [hsp] at ih
      cases r1 with
      | none =>
        have ih2 : splitFirst (s ++ ['/']) = (h1, some []) := ih
        simp [splitFirst, hc, hsp, ih2]
      | some r =>
        have ih2 : splitFirst (s ++ ['/']) = (h1, some (r ++ ['/'])) := ih
        simp [splitFirst, hc, hsp, ih2]

/-- Auxiliary strong induction for the trailing-separator law. -/
theorem trailing_slash_aux :
    ∀ n : Nat, ∀ q : Str, q.length ≤ n → ∀ dn : Str, ∀ dfs : List Node, ∀ dp : Nat,
      Node.Open (.dir dn dfs dp) (q ++ ['/']) =
        descendResult (Node.Open (.dir dn dfs dp) q) := by
  intro n
  induction n with
  | zero =>
    intro q hq dn dfs dp
    have : q = [] := List.length_eq_zero.mp (Nat.le_zero.mp hq)
    subst this
    rfl
  | succ n ih =>
    intro q hq dn dfs dp
    have hlen : (q ++ ['/']).length = q.length + 1 := by simp
    rcases hsp : splitFirst q with ⟨head, rest⟩
    cases rest with
    | none =>
      have hsp2 : splitFirst (q ++ ['/']) = (head, some []) := by
        rw [splitFirst_append_slash, hsp]
      have step1 : Node.Open (.dir dn dfs dp) (q ++ ['/']) =
          (match find (.dir dn dfs dp) head with
           | .ok (.dir sn sfs sp) => openFuel (q.length + 1) (.dir sn sfs sp) []
           | _ => .error .errNotExist) := by
        show openFuel ((q ++ ['/']).length + 1) (.dir dn dfs dp) (q ++ ['/']) = _
        rw [hlen, openFuel_succ, hsp2]
      have step2 : Node.Open (.dir dn dfs dp) q = find (.dir dn dfs dp) head := by
        show openFuel (q.length + 1) (.dir dn dfs dp) q = _
        rw [openFuel_succ, hsp]
      rw [step1, step2]
      rcases hf : find (.dir dn dfs dp) head with e | m
      · rfl
      · cases m with
        | file f => rfl
        | ext s => rfl
        | dir sn sfs sp =>
          show openFuel (q.length + 1) (.dir sn sfs sp) []
              = descendResult (.ok (.dir sn sfs sp))
          rw [openFuel_nil _ _ _ _ (Nat.succ_pos _)]
          rfl
    | some r =>
      have hr : r.length < q.length := splitFirst_rest_length hsp
      have hsp2 : splitFirst (q ++ ['/']) = (head, some (r ++ ['/'])) := by
        rw [splitFirst_append_slash, hsp]
      have step1 : Node.Open (.dir dn dfs dp) (q ++ ['/']) =
          (match find (.dir dn dfs dp) head with
           | .ok (.dir sn sfs sp) => openFuel (q.length + 1) (.dir sn sfs sp) (r ++ ['/'])
           | _ => .error .errNotExist) := by
        show openFuel ((q ++ ['/']).length + 1) (.dir dn dfs dp) (q ++ ['/']) = _
        rw [hlen, openFuel_succ, hsp2]
      have step2 : Node.Open (.dir dn dfs dp) q =
          (match find (.dir dn dfs dp) head with
           | .ok (.dir sn sfs sp) => openFuel q.length (.dir sn sfs sp) r
           | _ => .error .errNotExist) := by
        show openFuel (q.length + 1) (.dir dn dfs dp) q = _
        rw [openFuel_succ, hsp]
      rw [step1, step2]
      rcases hf : find (.dir dn dfs dp) head with e | m
      · rfl
      · cases m with
        | file f => rfl
        | ext s => rfl
        | dir sn sfs sp =>
          show openFuel (q.length + 1) (.dir sn sfs sp) (r ++ ['/'])
              = descendResult (openFuel q.length (.dir sn sfs sp) r)
          have e1 : openFuel (q.length + 1) (.dir sn sfs sp) (r ++ ['/'])
              = Node.Open (.dir sn sfs sp) (r ++ ['/']) :=
            openFuel_congr (q.length + 1) ((r ++ ['/']).length + 1) _ _
              (by simp; omega) (by simp)
          have e2 : openFuel q.length (.dir sn sfs sp) r
              = Node.Open (.dir sn sfs sp) r :=
            openFuel_congr q.length (r.length + 1) _ _ hr (Nat.lt_succ_self _)
          rw [e1, e2, ih r (by omega) sn sfs sp]

/-- C2 counterexample: in the repository's own test tree, opening the
trailing-separator path `"foo/"` (one of the claim's examples) does not
fail with NotFound — it succeeds and returns the `foo` directory,
because the empty final segment resolves to the matched container
itself. -/
theorem trailing_slash_cx :
    Node.Open testFS ("foo/".toList) = .ok fooD := by
  rfl

/-- C2 (amended): a path with a trailing separator resolves exactly like
its slash-stripped prefix when that prefix resolves to a container
(returning that container: the empty final segment is the "self" case),
and fails with `os.ErrNotExist` otherwise — in particular whenever the
prefix resolves to a leaf, as in the spec's `"hello/"` example. -/
theorem trailing_slash_resolution (dn : Str) (dfs : List Node) (dp : Nat) (q : Str) :
    Node.Open (.dir dn dfs dp) (q ++ ['/']) =
      descendResult (Node.Open (.dir dn dfs dp) q) :=
  trailing_slash_aux q.length q (Nat.le_refl _) dn dfs dp

/-! Lemmas about the listing protocol. -/

/-- A node whose `Stat` succeeds answers exactly its `statInfo`. -/
theorem statOk_stat {f : Node} (h : statOk f = true) :
    f.Stat = .ok (statInfo f) := by
  unfold statOk at h
  unfold statInfo
  revert h
  rcases f.Stat with e | i
  · intro h; simp at h
  · intro h; rfl

/-- When every child's `Stat` succeeds, the `count == 0` loop collects
every child's metadata in order. -/
theorem statList_ok :
    ∀ files : List Node, statsOk files = true →
      statList files = (files.map statInfo, none) := by
  intro files
  induction files with
  | nil => intro h; rfl
  | cons f rest ih =>
    intro h
    simp only [statsOk, List.all_cons, Bool.and_eq_true] at h
    simp only [statList, statOk_stat h.1, List.map_cons,
      ih (by simpa [statsOk] using h.2)]

/-- If a child's `Stat` fails, the `count == 0` loop returns exactly the
entries of the children before it plus that child's error. -/
theorem statList_err :
    ∀ (pre : List Node) (f : Node) (post : List Node) (e : GoError),
      statsOk pre = true → f.Stat = .error e →
      statList (pre ++ f :: post) = (pre.map statInfo, some e) := by
  intro pre
  induction pre with
  | nil =>
    intro f post e hok hfail
    simp only [List.nil_append, statList, hfail, List.map_nil]
  | cons g pre2 ih =>
    intro f post e hok hfail
    simp only [statsOk, List.all_cons, Bool.and_eq_true] at hok
    have ih2 := ih f post e (by simpa [statsOk] using hok.2) hfail
    simp only [List.cons_append, statList, statOk_stat hok.1, List.map_cons,
      List.append_eq, ih2]

/-- Characterization of the `count > 0` loop when every `Stat` succeeds:
starting at a cursor not past the end it returns the next `count` (or
all remaining) entries, signals `io.EOF` exactly when fewer than `count`
children remained, and leaves the cursor at `min (position + count)`
end. -/
theorem readdirLoop_spec :
    ∀ (k : Nat) (files : List Node) (p : Nat), p ≤ files.length →
      statsOk files = true →
      readdirLoop files p k =
        (((files.map statInfo).drop p).take k,
         if files.length < p + k then some GoError.eof else none,
         min (p + k) files.length) := by
  intro k
  induction k with
  | zero =>
    intro files p hp hok
    rw [if_neg (by omega), show min (p + 0) files.length = p from by omega]
    simp [readdirLoop]
  | succ k ih =>
    intro files p hp hok
    by_cases hlt : p < files.length
    · have hstat : files[p].Stat = .ok (statInfo files[p]) := by
        apply statOk_stat
        simp only [statsOk, List.all_eq_true] at hok
        exact hok _ (List.getElem_mem hlt)
      have step : readdirLoop files p (k + 1) =
          (statInfo files[p] :: (readdirLoop files (p + 1) k).1,
           (readdirLoop files (p + 1) k).2.1,
           (readdirLoop files (p + 1) k).2.2) := by
        simp only [readdirLoop]
        rw [dif_pos hlt, hstat]
      rw [step, ih files (p + 1) (by omega) hok]
      have hdrop : (files.map statInfo).drop p =
          statInfo files[p] :: (files.map statInfo).drop (p + 1) := by
        rw [List.drop_eq_getElem_cons (by simpa using hlt)]
        simp
      rw [hdrop, List.take_succ_cons,
        show p + 1 + k = p + (k + 1) from by omega]
    · have hpe : p = files.length := by omega
      have step : readdirLoop files p (k + 1) = ([], some .eof, p) := by
        simp only [readdirLoop]
        rw [dif_neg hlt]
      rw [step, List.drop_eq_nil_of_le (by simp only [List.length_map]; omega),
        if_pos (by omega), show min (p + (k + 1)) files.length = p from by omega]
      simp

/-- Characterization of the `count > 0` loop hitting a child whose
`Stat` fails: the entries collected in this call so far come back with
that child's error, and the cursor stops at the failing child. -/
theorem readdirLoop_err :
    ∀ (preq files : List Node) (p count : Nat) (f : Node) (postq : List Node)
      (e : GoError),
      files.drop p = preq ++ f :: postq → statsOk preq = true →
      f.Stat = .error e → preq.length < count →
      readdirLoop files p count = (preq.map statInfo, some e, p + preq.length) := by
  intro preq
  induction preq with
  | nil =>
    intro files p count f postq e hdrop hok hfail hlen
    cases count with
    | zero => omega
    | succ c =>
      have hp : p < files.length := by
        by_contra hc
        rw [List.drop_eq_nil_of_le (by omega)] at hdrop
        simp at hdrop
      have hfp : files[p] = f := by
        have h0 : files[p]? = some f := by
          rw [show p = p + 0 from by omega, ← List.getElem?_drop, hdrop]
          simp
        simpa [List.getElem?_eq_getElem hp] using h0
      simp only [readdirLoop]
      rw [dif_pos hp, hfp, hfail]
      simp
  | cons g pre2 ih =>
    intro files p count f postq e hdrop hok hfail hlen
    cases count with
    | zero => simp at hlen
    | succ c =>
      have hp : p < files.length := by
        by_contra hc
        rw [List.drop_eq_nil_of_le (by omega)] at hdrop
        simp at hdrop
      have hgp : files[p] = g := by
        have h0 : files[p]? = some g := by
          rw [show p = p + 0 from by omega, ← List.getElem?_drop, hdrop]
          simp
        simpa [List.getElem?_eq_getElem hp] using h0
      simp only [statsOk, List.all_cons, Bool.and_eq_true] at hok
      have hdrop2 : files.drop (p + 1) = pre2 ++ f :: postq := by
        have := congrArg (List.drop 1) hdrop
        simpa [List.drop_drop] using this
      simp only [readdirLoop]
      rw [dif_pos hp, hgp, statOk_stat hok.1]
      rw [ih files (p + 1) c f postq e hdrop2 (by simpa [statsOk] using hok.2)
        hfail (by simp only [List.length_cons] at hlen; omega)]
      simp only [List.map_cons]
      rw [show p + 1 + pre2.length = p + (pre2.length + 1) from by omega]
      rfl

/-- C5: `Readdir 0` returns the metadata of all children in insertion
order in one call (when every child's metadata is obtainable), and the
persistent cursor is neither read nor mutated: whatever its current
value, the call returns it unchanged. -/
theorem readdir_zero_lists_all_and_preserves_cursor
    (files : List Node) (pos : Nat) :
    (statsOk files = true → Readdir files pos 0 = (files.map statInfo, none, pos))
    ∧ (Readdir files pos 0).2.2 = pos := by
  constructor
  · intro h
    simp [Readdir, statList_ok files h]
  · simp [Readdir]

/-- C5 witness: the five-file test directory, with the cursor at 3. -/
theorem readdir_zero_witness :
    statsOk pagFiles = true
    ∧ Readdir pagFiles 3 0 = (pagFiles.map statInfo, none, 3) :=
  ⟨by decide,
   (readdir_zero_lists_all_and_preserves_cursor pagFiles 3).1 (by decide)⟩

/-- C6: in both branches of `Readdir`, a child whose `Stat` fails with
`e` stops the listing right there: the call returns exactly the entries
collected for the children already processed in this call (none
dropped), together with `e` itself. -/
theorem readdir_partial_result_with_error :
    (∀ (pre : List Node) (f : Node) (post : List Node) (e : GoError) (pos : Nat),
      statsOk pre = true → f.Stat = .error e →
      Readdir (pre ++ f :: post) pos 0 = (pre.map statInfo, some e, pos))
    ∧ (∀ (files : List Node) (p count : Nat) (preq : List Node) (f : Node)
        (postq : List Node) (e : GoError),
      files.drop p = preq ++ f :: postq → statsOk preq = true →
      f.Stat = .error e → preq.length < count →
      Readdir files p count = (preq.map statInfo, some e, p + preq.length)) := by
  constructor
  · intro pre f post e pos hok hfail
    simp [Readdir, statList_err pre f post e hok hfail]
  · intro files p count preq f postq e hdrop hok hfail hlen
    rw [Readdir, if_neg (by omega)]
    exact readdirLoop_err preq files p count f postq e hdrop hok hfail hlen

/-- C6 witness: a directory whose second child is an external node with
a failing `Stat`, listed with `count = 0` and with `count = 3`. -/
theorem readdir_partial_witness :
    statsOk [.file helloF] = true
    ∧ Node.Stat extBad = .error boomE
    ∧ Readdir ([.file helloF] ++ extBad :: [.file bazF]) 7 0
        = ([statInfo (.file helloF)], some boomE, 7)
    ∧ Readdir [.file helloF, extBad, .file bazF] 0 3
        = ([statInfo (.file helloF)], some boomE, 1) :=
  ⟨by decide, rfl,
   readdir_partial_result_with_error.1 [.file helloF] extBad [.file bazF]
     boomE 7 (by decide) rfl,
   readdir_partial_result_with_error.2 [.file helloF, extBad, .file bazF]
     0 3 [.file helloF] extBad [.file bazF] boomE rfl (by decide)
     rfl (by decide)⟩

/-- The cursor after `i` successive `Readdir count` calls from 0 is
`min (i * count)` end, when every `Stat` succeeds. -/
theorem iterPos_spec (files : List Node) (K : Nat) (h : statsOk files = true)
    (hK : 0 < K) : ∀ i : Nat, iterPos files K i = min (i * K) files.length := by
  intro i
  induction i with
  | zero => simp [iterPos]
  | succ i ih =>
    show (Readdir files (iterPos files K i) K).2.2 = _
    rw [ih, Readdir, if_neg (by omega),
      readdirLoop_spec K files (min (i * K) files.length) (by omega) h]
    show min (min (i * K) files.length + K) files.length = _
    rw [Nat.succ_mul]
    generalize i * K = a
    omega

/-- C3 (amended): with page size `K > 0`, and all metadata obtainable,
the `i`-th of the successive `Readdir K` calls starting from cursor 0
returns the slice `[i*K, i*K+K)` of the children's metadata in insertion
order, carries the `io.EOF` exhaustion signal exactly when `i*K + K`
exceeds the child count `N` — so the last non-empty page carries it only
when `K` does not divide `N`; when `K` divides `N` the signal first
appears on the following, empty call — and leaves the cursor at
`min (i*K + K) N` (hence calls at or past the end return empty plus the
signal, repeatedly); `Close` resets the cursor to 0 and returns nil. -/
theorem readdir_pagination (files : List Node) (K : Nat)
    (h : statsOk files = true) (hK : 0 < K) :
    (∀ i : Nat, nthPage files K i =
      (((files.map statInfo).drop (i * K)).take K,
       if files.length < i * K + K then some GoError.eof else none,
       min (i * K + K) files.length))
    ∧ (∀ p : Nat, Close p = (none, 0)) := by
  refine ⟨fun i => ?_, fun p => rfl⟩
  show Readdir files (iterPos files K i) K = _
  rw [iterPos_spec files K h hK i, Readdir, if_neg (by omega),
    readdirLoop_spec K files (min (i * K) files.length) (by omega) h]
  have hdrop : (files.map statInfo).drop (min (i * K) files.length)
      = (files.map statInfo).drop (i * K) := by
    rcases Nat.le_total (i * K) files.length with hle | hge
    · rw [Nat.min_eq_left hle]
    · rw [Nat.min_eq_right hge,
        List.drop_eq_nil_of_le (by simp),
        List.drop_eq_nil_of_le (by simp only [List.length_map]; omega)]
  have hcond : (files.length < min (i * K) files.length + K)
      ↔ (files.length < i * K + K) := by
    generalize i * K = a
    omega
  have hmin : min (min (i * K) files.length + K) files.length
      = min (i * K + K) files.length := by
    generalize i * K = a
    omega
  rw [hdrop, hmin]
  simp only [hcond]

/-- C3 counterexample: five children with page size 5 (so `K` divides
`N`): the final page holds all five entries yet is returned with a `nil`
error slot, not together with the exhaustion signal — `io.EOF` only
arrives on the next, empty call. -/
theorem readdir_pagination_cx :
    (Readdir pagFiles 0 5).1.length = 5
    ∧ (Readdir pagFiles 0 5).2.1 ≠ some GoError.eof := by
  constructor
  · decide
  · decide

/-- C3 witness: five children, page size 2, third call (`i = 2`): one
entry remains and it comes back together with the exhaustion signal. -/
theorem readdir_pagination_witness :
    statsOk pagFiles = true ∧ 0 < 2
    ∧ nthPage pagFiles 2 2 =
      (((pagFiles.map statInfo).drop (2 * 2)).take 2,
       if pagFiles.length < 2 * 2 + 2 then some GoError.eof else none,
       min (2 * 2 + 2) pagFiles.length) :=
  ⟨by decide, by decide,
   (readdir_pagination pagFiles 2 (by decide) (by decide)).1 2⟩

/-! Lemmas about reading a leaf. -/

/-- Enough fuel makes the read-to-end loop collect exactly the bytes
from the cursor to the end. -/
theorem readAllAux_spec :
    ∀ (fuel : Nat) (f : GoFile), f.content.length - f.pos ≤ fuel →
      readAllAux f fuel = f.content.drop f.pos := by
  intro fuel
  induction fuel with
  | zero =>
    intro f h
    rw [List.drop_eq_nil_of_le (by omega)]
    rfl
  | succ fuel ih =>
    intro f h
    by_cases hend : f.content.length ≤ f.pos
    · have step : readAllAux f (fuel + 1) = [] := by
        simp only [readAllAux, GoFile.Read]
        rw [if_pos hend]
      rw [step, List.drop_eq_nil_of_le hend]
    · have step : readAllAux f (fuel + 1) =
          (f.content.drop f.pos).take 512 ++
            readAllAux { f with pos := f.pos + ((f.content.drop f.pos).take 512).length }
              fuel := by
        simp only [readAllAux, GoFile.Read]
        rw [if_neg hend]
      rw [step]
      have hlt : ((f.content.drop f.pos).take 512).length
          = min 512 (f.content.length - f.pos) := by
        simp [List.length_take]
      have ih2 := ih { f with pos := f.pos + ((f.content.drop f.pos).take 512).length }
        (by simp only [hlt]; omega)
      rw [ih2]
      show (f.content.drop f.pos).take 512 ++
        f.content.drop (f.pos + ((f.content.drop f.pos).take 512).length) = _
      rw [← List.drop_drop]
      have key : ∀ (l : List Char) (n : Nat),
          l.take n ++ l.drop ((l.take n).length) = l := by
        intro l n
        rw [List.length_take]
        rcases Nat.le_total n l.length with h | h
        · rw [Nat.min_eq_left h]
          exact List.take_append_drop n l
        · rw [Nat.min_eq_right h, List.drop_length, List.take_of_length_le h,
            List.append_nil]
      exact key _ 512

/-- C4: a leaf constructed with content `C` stores exactly `C` with its
cursor at the start, and whenever resolving a path `P` from a directory
yields a leaf whose cursor is at its initial position, reading it to the
end yields exactly its content, byte for byte. -/
theorem open_then_read_all :
    (∀ (nm C : Str) (opts : List Time),
      (File nm C opts).content = C ∧ (File nm C opts).pos = 0)
    ∧ (∀ (dn : Str) (dfs : List Node) (dp : Nat) (P : Str) (f : GoFile),
      Node.Open (.dir dn dfs dp) P = .ok (.file f) → f.pos = 0 →
      readAll f = f.content) := by
  refine ⟨fun nm C opts => ⟨rfl, rfl⟩, fun dn dfs dp P f hopen hpos => ?_⟩
  rw [readAll, readAllAux_spec (f.content.length + 1) f (by omega), hpos,
    List.drop_zero]

/-- C4 witness: the leaf at `"foo/bar"` in the test tree reads back as
`"BAR"`. -/
theorem open_then_read_all_witness :
    Node.Open testFS ("foo/bar".toList) = .ok (.file barF)
    ∧ barF.pos = 0
    ∧ readAll barF = "BAR".toList :=
  ⟨rfl, rfl,
   (open_then_read_all.2 [] [fooD, .file helloF] 0 ("foo/bar".toList) barF
     rfl rfl).trans rfl⟩

/-- C7: after reading `k` of the `n` content bytes of a freshly
constructed leaf, its reported size is `n - k` — the remaining unread
count, not the original length; a directory's reported size is 0. -/
theorem size_reflects_read_position :
    (∀ (nm C : Str) (opts : List Time) (k : Nat), k ≤ C.length →
      (((File nm C opts).Read k).2.2).Size = (C.length : Int) - (k : Int))
    ∧ (∀ (dn : Str) (dfs : List Node) (dp : Nat), dirSize dn dfs dp = 0) := by
  refine ⟨fun nm C opts k hk => ?_, fun dn dfs dp => rfl⟩
  by_cases h0 : C.length ≤ 0
  · have hC : C = [] := List.length_eq_zero.mp (by omega)
    subst hC
    have hk0 : k = 0 := by simpa using hk
    subst hk0
    rfl
  · have step : ((File nm C opts).Read k).2.2
        = { File nm C opts with pos := 0 + ((C.drop 0).take k).length } := by
      simp only [GoFile.Read, File]
      rw [if_neg h0]
    rw [step]
    simp only [GoFile.Size, GoFile.readerLen, List.drop_zero, List.length_take]
    simp only [File]
    omega

/-- C7 witness: reading 2 of the 5 bytes of `"hello"` leaves size 3. -/
theorem size_reflects_read_position_witness :
    (2 : Nat) ≤ ("hello".toList).length
    ∧ ((File ("hello".toList) ("hello".toList) []).Read 2).2.2.Size
        = (("hello".toList).length : Int) - (2 : Int) :=
  ⟨by decide,
   size_reflects_read_position.1 ("hello".toList) ("hello".toList) [] 2 (by decide)⟩

/-- C8: a leaf's modify-time query returns the timestamp supplied at
construction — the zero value when none was supplied — and never aborts;
a directory's modify-time query is a fatal panic for every directory,
not a returned error. -/
theorem modTime_leaf_total_container_fatal :
    (∀ nm C : Str, (File nm C []).ModTime = FatalOr.value 0)
    ∧ (∀ (nm C : Str) (t : Time), (File nm C [t]).ModTime = FatalOr.value t)
    ∧ (∀ f : GoFile, f.ModTime = FatalOr.value f.modTime)
    ∧ (∀ (dn : Str) (dfs : List Node) (dp : Nat),
        dirModTime dn dfs dp = FatalOr.fatal ("unimplemented".toList)) :=
  ⟨fun _ _ => rfl, fun _ _ _ => rfl, fun _ => rfl, fun _ _ _ => rfl⟩

/-- C9: when a path has remaining segments, descent happens only if the
matched child is a `dir` value of this package; any other matched node —
a leaf, or an external node even if its metadata reports a directory —
makes `Open` fail with `os.ErrNotExist`. -/
theorem open_descends_only_into_package_dirs
    (dn : Str) (dfs : List Node) (dp : Nat) (nm head rest : Str) (m : Node)
    (hsplit : splitFirst nm = (head, some rest))
    (hfind : find (.dir dn dfs dp) head = .ok m)
    (hnotdir : ∀ (sn : Str) (sfs : List Node) (sp : Nat), m ≠ .dir sn sfs sp) :
    Node.Open (.dir dn dfs dp) nm = .error .errNotExist := by
  show openFuel (nm.length + 1) (.dir dn dfs dp) nm = _
  rw [openFuel_succ, hsplit]
  show (match find (.dir dn dfs dp) head with
        | .ok (.dir sn sfs sp) => openFuel nm.length (.dir sn sfs sp) rest
        | _ => .error .errNotExist) = .error .errNotExist
  rw [hfind]
  cases m with
  | file f => rfl
  | ext r => rfl
  | dir sn sfs sp => exact absurd rfl (hnotdir sn sfs sp)

/-- C9 witness: an external child whose metadata reports a directory
named `x`; opening `"x/y"` still fails with `os.ErrNotExist`. -/
theorem open_descends_witness :
    splitFirst ("x/y".toList) = ("x".toList, some ("y".toList))
    ∧ find (.dir [] [extDir] 0) ("x".toList) = .ok extDir
    ∧ (statInfo extDir).isDir = true
    ∧ Node.Open (.dir [] [extDir] 0) ("x/y".toList) = .error .errNotExist :=
  ⟨rfl, rfl, rfl,
   open_descends_only_into_package_dirs [] [extDir] 0 ("x/y".toList)
     ("x".toList) ("y".toList) extDir rfl rfl
     (by intro sn sfs sp h; simp [extDir] at h)⟩

/-! Lemmas about the state-threading form of `Open`. -/

/-- Threaded `Stat` answers the same result as `Stat` and hands the
receiver back unchanged (its method bodies contain no assignment). -/
theorem StatT_eq (f : Node) : StatT f = (f.Stat, f) := by
  cases f <;> rfl

/-- The threaded `find` scan leaves the children untouched. -/
theorem findLoopT_snd :
    ∀ (fs : List Node) (nm : Str) (i : Nat), (findLoopT fs nm i).2 = fs := by
  intro fs
  induction fs with
  | nil => intro nm i; rfl
  | cons f rest ih =>
    intro nm i
    simp only [findLoopT, StatT_eq]
    rcases f.Stat with e | info
    · rfl
    · by_cases hn : info.name = nm
      · simp [hn]
      · simp [hn, ih]

/-- The threaded `find` leaves the children untouched. -/
theorem findT_snd (dfs : List Node) (nm : Str) : (findT dfs nm).2 = dfs := by
  unfold findT
  by_cases hnm : nm = [] ∨ nm = ['.']
  · rw [if_pos hnm]
  · rw [if_neg hnm]
    have h2 := findLoopT_snd dfs nm 0
    rcases hl : findLoopT dfs nm 0 with ⟨res, l⟩
    rw [hl] at h2
    cases res with
    | error e => simpa using h2
    | ok i => simpa using h2

/-- Writing an element back over itself changes nothing. -/
theorem set_self_of_getElem : ∀ (l : List Node) (i : Nat) (x : Node),
    l[i]? = some x → l.set i x = l := by
  intro l
  induction l with
  | nil => intro i x h; simp at h
  | cons a as ih =>
    intro i x h
    cases i with
    | zero => simp at h; simp [h]
    | succ j =>
      simp at h
      simp [ih j x h]

/-- How the threaded `find` scan's outcome maps to `findLoop`: an error
is the same error, and a found index holds the child `findLoop`
returns. -/
theorem findLoopT_fst (fs : List Node) (nm : Str) :
    ∀ i : Nat,
      (∀ e, (findLoopT fs nm i).1 = .error e → findLoop fs nm = .error e)
      ∧ (∀ j, (findLoopT fs nm i).1 = .ok j →
          i ≤ j ∧ ∃ c, fs[j - i]? = some c ∧ findLoop fs nm = .ok c) := by
  induction fs with
  | nil =>
    intro i
    constructor
    · intro e he
      simp only [findLoopT, Except.error.injEq] at he
      simp only [findLoop]
      rw [← he]
    · intro j hj
      simp only [findLoopT] at hj
      simp at hj
  | cons f rest ih =>
    intro i
    rcases hs : f.Stat with e0 | info
    · have hT : (findLoopT (f :: rest) nm i).1 = .error e0 := by
        simp [findLoopT, StatT_eq, hs]
      have hL : findLoop (f :: rest) nm = .error e0 := by
        simp [findLoop, hs]
      constructor
      · intro e he
        rw [hT] at he
        simp only [Except.error.injEq] at he
        rw [hL, he]
      · intro j hj
        rw [hT] at hj
        simp at hj
    · by_cases hn : info.name = nm
      · have hT : (findLoopT (f :: rest) nm i).1 = .ok i := by
          simp [findLoopT, StatT_eq, hs, hn]
        have hL : findLoop (f :: rest) nm = .ok f := by
          simp [findLoop, hs, hn]
        constructor
        · intro e he
          rw [hT] at he
          simp at he
        · intro j hj
          rw [hT] at hj
          simp only [Except.ok.injEq] at hj
          subst hj
          exact ⟨Nat.le_refl _, f, by simp, hL⟩
      · have hT : (findLoopT (f :: rest) nm i).1 = (findLoopT rest nm (i + 1)).1 := by
          simp [findLoopT, StatT_eq, hs, hn]
        have hL : findLoop (f :: rest) nm = findLoop rest nm := by
          simp [findLoop, hs, hn]
        rw [hT, hL]
        constructor
        · intro e he
          exact (ih (i + 1)).1 e he
        · intro j hj
          obtain ⟨hij, c, hc, hfl⟩ := (ih (i + 1)).2 j hj
          refine ⟨by omega, c, ?_, hfl⟩
          rw [show j - i = (j - (i + 1)) + 1 from by omega]
          simpa using hc

/-- Interpreting the threaded `find`'s outcome against the children
gives exactly what `find` returns. -/
theorem findT_fst (dn : Str) (dfs : List Node) (dp : Nat) (nm : Str) :
    (match (findT dfs nm).1 with
     | .selfR => Except.ok (Node.dir dn dfs dp)
     | .childR i =>
       (match dfs[i]? with
        | some c => Except.ok c
        | none => Except.error GoError.errNotExist)
     | .errR e => Except.error e)
    = find (.dir dn dfs dp) nm := by
  have hfind0 : (nm = [] ∨ nm = ['.']) → find (.dir dn dfs dp) nm = .ok (.dir dn dfs dp) := by
    intro h
    unfold find
    rw [if_pos h]
  by_cases hnm : nm = [] ∨ nm = ['.']
  · have hT : findT dfs nm = (.selfR, dfs) := by
      unfold findT
      rw [if_pos hnm]
    rw [hT, hfind0 hnm]
  · have hfind : find (.dir dn dfs dp) nm = findLoop dfs nm := by
      unfold find
      rw [if_neg hnm]
    have h := findLoopT_fst dfs nm 0
    rcases hl : findLoopT dfs nm 0 with ⟨res, l⟩
    cases res with
    | error e =>
      have hT : findT dfs nm = (.errR e, l) := by
        unfold findT
        rw [if_neg hnm, hl]
      have he := h.1 e (by rw [hl])
      rw [hT, hfind, he]
    | ok j =>
      have hT : findT dfs nm = (.childR j, l) := by
        unfold findT
        rw [if_neg hnm, hl]
      obtain ⟨h0j, c, hc, hfl⟩ := h.2 j (by rw [hl])
      rw [Nat.sub_zero] at hc
      rw [hT, hfind, hfl]
      simp [hc]

/-- Agreement: the threaded `Open` computes exactly the same result as
the resolver's `Open`, for any fuel. -/
theorem OpenTF_fst :
    ∀ (fuel : Nat) (dn : Str) (dfs : List Node) (dp : Nat) (nm : Str),
      (OpenTF fuel dn dfs dp nm).1 = openFuel fuel (.dir dn dfs dp) nm := by
  intro fuel
  induction fuel with
  | zero => intro dn dfs dp nm; rfl
  | succ fuel ih =>
    intro dn dfs dp nm
    rcases hsp : splitFirst nm with ⟨head, rest⟩
    have hft := findT_snd dfs head
    rcases hf : findT dfs head with ⟨res, dfs1⟩
    rw [hf] at hft
    simp only at hft
    subst hft
    have hinterp := findT_fst dn dfs1 dp head
    rw [hf] at hinterp
    cases rest with
    | none =>
      have stepR : openFuel (fuel + 1) (.dir dn dfs1 dp) nm
          = find (.dir dn dfs1 dp) head := by
        rw [openFuel_succ, hsp]
      rw [stepR]
      cases res with
      | selfR =>
        have hinterp2 : Except.ok (Node.dir dn dfs1 dp)
            = find (.dir dn dfs1 dp) head := hinterp
        have stepL : (OpenTF (fuel + 1) dn dfs1 dp nm).1
            = Except.ok (Node.dir dn dfs1 dp) := by
          simp only [OpenTF, hsp, hf]
        rw [stepL]
        exact hinterp2
      | childR i =>
        have hinterp2 : (match dfs1[i]? with
            | some c => Except.ok c
            | none => Except.error GoError.errNotExist)
            = find (.dir dn dfs1 dp) head := hinterp
        have stepL : (OpenTF (fuel + 1) dn dfs1 dp nm).1
            = (match dfs1[i]? with
               | some c => Except.ok c
               | none => Except.error GoError.errNotExist) := by
          simp only [OpenTF, hsp, hf]
        rw [stepL]
        exact hinterp2
      | errR e =>
        have hinterp2 : (Except.error e : Except GoError Node)
            = find (.dir dn dfs1 dp) head := hinterp
        have stepL : (OpenTF (fuel + 1) dn dfs1 dp nm).1
            = (Except.error e : Except GoError Node) := by
          simp only [OpenTF, hsp, hf]
        rw [stepL]
        exact hinterp2
    | some r =>
      have stepR : openFuel (fuel + 1) (.dir dn dfs1 dp) nm
          = (match find (.dir dn dfs1 dp) head with
             | .ok (.dir sn sfs sp) => openFuel fuel (.dir sn sfs sp) r
             | _ => .error .errNotExist) := by
        rw [openFuel_succ, hsp]
      rw [stepR]
      cases res with
      | selfR =>
        have hinterp2 : Except.ok (Node.dir dn dfs1 dp)
            = find (.dir dn dfs1 dp) head := hinterp
        have stepL : (OpenTF (fuel + 1) dn dfs1 dp nm).1
            = (OpenTF fuel dn dfs1 dp r).1 := by
          simp only [OpenTF, hsp, hf]
        rw [stepL, ← hinterp2, ih dn dfs1 dp r]
      | errR e =>
        have hinterp2 : (Except.error e : Except GoError Node)
            = find (.dir dn dfs1 dp) head := hinterp
        have stepL : (OpenTF (fuel + 1) dn dfs1 dp nm).1
            = Except.error GoError.errNotExist := by
          simp only [OpenTF, hsp, hf]
        rw [stepL, ← hinterp2]
      | childR i =>
        have hinterp2 : (match dfs1[i]? with
            | some c => Except.ok c
            | none => Except.error GoError.errNotExist)
            = find (.dir dn dfs1 dp) head := hinterp
        rcases hc : dfs1[i]? with _ | c
        · rw [hc] at hinterp2
          have stepL : (OpenTF (fuel + 1) dn dfs1 dp nm).1
              = Except.error GoError.errNotExist := by
            simp only [OpenTF, hsp, hf, hc]
          rw [stepL, ← hinterp2]
        · cases c with
          | file f =>
            rw [hc] at hinterp2
            have stepL : (OpenTF (fuel + 1) dn dfs1 dp nm).1
                = Except.error GoError.errNotExist := by
              simp only [OpenTF, hsp, hf, hc]
            rw [stepL, ← hinterp2]
          | ext s =>
            rw [hc] at hinterp2
            have stepL : (OpenTF (fuel + 1) dn dfs1 dp nm).1
                = Except.error GoError.errNotExist := by
              simp only [OpenTF, hsp, hf, hc]
            rw [stepL, ← hinterp2]
          | dir sn sfs sp =>
            rw [hc] at hinterp2
            have stepL : (OpenTF (fuel + 1) dn dfs1 dp nm).1
                = (OpenTF fuel sn sfs sp r).1 := by
              simp only [OpenTF, hsp, hf, hc]
            rw [stepL, ← hinterp2, ih sn sfs sp r]

/-- The frame lemma: the threaded `Open` hands back the directory state
exactly as it received it, for any fuel. -/
theorem OpenTF_preserves :
    ∀ (fuel : Nat) (dn : Str) (dfs : List Node) (dp : Nat) (nm : Str),
      (OpenTF fuel dn dfs dp nm).2 = (dn, dfs, dp) := by
  intro fuel
  induction fuel with
  | zero => intro dn dfs dp nm; rfl
  | succ fuel ih =>
    intro dn dfs dp nm
    rcases hsp : splitFirst nm with ⟨head, rest⟩
    have hft := findT_snd dfs head
    rcases hf : findT dfs head with ⟨res, dfs1⟩
    rw [hf] at hft
    simp only at hft
    subst hft
    cases rest with
    | none =>
      simp only [OpenTF, hsp, hf]
      cases res with
      | selfR => rfl
      | childR i => rfl
      | errR e => rfl
    | some r =>
      simp only [OpenTF, hsp, hf]
      cases res with
      | selfR => exact ih dn dfs1 dp r
      | errR e => rfl
      | childR i =>
        rcases hc : dfs1[i]? with _ | c
        · simp only [hc]
        · cases c with
          | file f => simp only [hc]
          | ext s => simp only [hc]
          | dir sn sfs sp =>
            simp only [hc, ih sn sfs sp r]
            rw [set_self_of_getElem dfs1 i _ hc]

/-- C10: resolving any path through the threaded `Open` returns the
directory — name, children (with every leaf's read cursor and every
subdirectory's iteration cursor), and its own cursor — exactly as it
was, whether the resolution succeeds or fails; the precondition that the
tree was built by this package's constructors matches the claim (an
external node's `Stat` could have side effects, which this model cannot
represent). -/
theorem open_mutates_no_state (dn : Str) (dfs : List Node) (dp : Nat)
    (nm : Str) (_hpb : PackageBuilt (.dir dn dfs dp)) :
    (OpenT dn dfs dp nm).1 = Node.Open (.dir dn dfs dp) nm
    ∧ (OpenT dn dfs dp nm).2 = (dn, dfs, dp) :=
  ⟨OpenTF_fst (nm.length + 1) dn dfs dp nm,
   OpenTF_preserves (nm.length + 1) dn dfs dp nm⟩

/-- C10 witness: the test tree is package-built, and opening
`"foo/bar"` hands every cursor back unchanged. -/
theorem open_mutates_no_state_witness :
    PackageBuilt testFS
    ∧ (OpenT [] [fooD, .file helloF] 0 ("foo/bar".toList)).1
        = Node.Open testFS ("foo/bar".toList)
    ∧ (OpenT [] [fooD, .file helloF] 0 ("foo/bar".toList)).2
        = ([], [fooD, .file helloF], 0) := by
  have hbaz3 : PackageBuilt (Dir ("baz".toList) [.file bazF]) := by
    refine .dirB _ _ _ ?_
    intro c hc
    rw [List.mem_singleton] at hc
    subst hc
    exact .fileB _
  have hbaz2 : PackageBuilt (Dir ("baz".toList) [Dir ("baz".toList) [.file bazF]]) := by
    refine .dirB _ _ _ ?_
    intro c hc
    rw [List.mem_singleton] at hc
    subst hc
    exact hbaz3
  have hbaz1 : PackageBuilt
      (Dir ("baz".toList) [Dir ("baz".toList) [Dir ("baz".toList) [.file bazF]]]) := by
    refine .dirB _ _ _ ?_
    intro c hc
    rw [List.mem_singleton] at hc
    subst hc
    exact hbaz2
  have hfoo : PackageBuilt fooD := by
    refine .dirB _ _ _ ?_
    intro c hc
    rcases List.mem_pair.mp hc with rfl | rfl
    · exact .fileB _
    · exact hbaz1
  have hpb : PackageBuilt testFS := by
    refine .dirB _ _ _ ?_
    intro c hc
    rcases List.mem_pair.mp hc with rfl | rfl
    · exact hfoo
    · exact .fileB _
  exact ⟨hpb,
    (open_mutates_no_state [] [fooD, .file helloF] 0 ("foo/bar".toList) hpb).1,
    (open_mutates_no_state [] [fooD, .file helloF] 0 ("foo/bar".toList) hpb).2⟩

end Fakehttpfs

